import Mathlib

/-!
Verification of the Manipulator Robot motor-control core (src/main.py).

The Python program keeps six motor targets and six simulated motor angles,
clamps keyboard-driven target adjustments to per-motor ranges, smooths the
angles toward the targets once per frame, and serializes the six targets
into an ASCII command frame sent over a serial port.  This file gives a
shallow embedding of that core: positions are rationals, the serial port is
a transcript of sent frames together with a flag saying whether writes
succeed, and Python exceptions are modelled with `Except`.
-/

set_option maxRecDepth 10000

namespace Manipulator

/-- Motor value ranges, from `motor_ranges` in src/main.py line 15. -/
def motor_ranges : List (ℚ × ℚ) :=
  [(0, 1023), (512, 634), (104, 924), (512, 956), (0, 1023), (430, 890)]

/-- Motor display names, from `motor_names` in src/main.py line 21. -/
def motor_names : List String :=
  ["Base", "Shoulder", "Apear_Arm", "Elbow", "Wrist", "Hand"]

/-- Delay before key repeat starts, ms (`KEY_REPEAT_DELAY`, line 27). -/
def KEY_REPEAT_DELAY : ℕ := 50

/-- Interval between repeated commands, ms (`KEY_REPEAT_INTERVAL`, line 28). -/
def KEY_REPEAT_INTERVAL : ℕ := 50

/-- Step applied per keyboard intent (`FAST_STEP_SIZE`, line 281). -/
def FAST_STEP_SIZE : ℚ := 3

/-- Python `int()` conversion on a float: truncation toward zero. -/
def pyInt (q : ℚ) : ℤ := if q < 0 then Int.ceil q else Int.floor q

/-- Python `min` of two values (returns the first argument on ties). -/
def pymin (a b : ℚ) : ℚ := if a ≤ b then a else b

/-- Python `max` of two values (returns the first argument on ties). -/
def pymax (a b : ℚ) : ℚ := if b ≤ a then a else b

/-- Mutable program state touched by the motor-control core: the two
position lists, the status text, and the transcript of frames that were
successfully written to the serial port. -/
structure RobotState where
  motor_targets : List ℚ
  motor_angles : List ℚ
  action_text : String
  sent : List String
deriving Repr, DecidableEq

/-- Initial state, from lines 18-22 of src/main.py. -/
def initRobot : RobotState :=
  { motor_targets := [512, 512, 512, 956, 800, 430]
    motor_angles := [512, 512, 512, 956, 800, 430]
    action_text := "System Ready"
    sent := [] }

/-- The command frame built by `send_command` (line 220): the six targets
truncated to integers, comma separated, terminated by a single star. -/
def encode_command (targets : List ℚ) : String :=
  toString (pyInt (targets.getD 0 0)) ++ "," ++ toString (pyInt (targets.getD 1 0)) ++ "," ++
  toString (pyInt (targets.getD 2 0)) ++ "," ++ toString (pyInt (targets.getD 3 0)) ++ "," ++
  toString (pyInt (targets.getD 4 0)) ++ "," ++ toString (pyInt (targets.getD 5 0)) ++ "*"

/-- Join a list of strings with single commas between consecutive elements. -/
def joinComma : List String → String
  | [] => ""
  | [x] => x
  | x :: y :: xs => x ++ "," ++ joinComma (y :: xs)

/-- Spec-side rendering of the wire contract: the decimal strings of the
truncated values, in order, separated by single commas, terminated by a
single star, with no trailing newline. -/
def spec_encode (targets : List ℚ) : String :=
  joinComma (targets.map (fun q => toString (pyInt q))) ++ "*"

/-- Embedding of `send_command` (lines 212-230).  The frame is built from
the current targets and written to the port; `sendOk` says whether the
write succeeds.  The surrounding try/except catches every exception, so the
function never propagates an error and, apart from the transcript, leaves
the state untouched. -/
def send_command (sendOk : Bool) (s : RobotState) : RobotState :=
  if sendOk then { s with sent := s.sent ++ [encode_command s.motor_targets] }
  else s

/-- Python list index semantics for a list of length `len`: indices in
`[0, len)` are used directly, indices in `[-len, 0)` count from the end,
anything else raises `IndexError`. -/
def pyIdx (len : ℕ) (i : ℤ) : Option ℕ :=
  if 0 ≤ i ∧ i < (len : ℤ) then some i.toNat
  else if -(len : ℤ) ≤ i ∧ i < 0 then some (i + (len : ℤ)).toNat
  else none

/-- Embedding of `update_robot_action` (lines 232-257).  When a motor index
is supplied, the corresponding range is looked up (Python list indexing,
which can raise `IndexError`), the target is adjusted with clamping when
the direction is "increase" or "decrease", and `send_command` always runs.
Without a motor index only the status text is updated. -/
def update_robot_action (sendOk : Bool) (s : RobotState) (action : String)
    (motor_index : Option ℤ) (direction : String) (step_size : ℚ) :
    Except String RobotState :=
  match motor_index with
  | none => Except.ok { s with action_text := action }
  | some mi =>
    match pyIdx motor_ranges.length mi with
    | none => Except.error "IndexError: list index out of range"
    | some j =>
      let min_val := (motor_ranges.getD j (0, 0)).1
      let max_val := (motor_ranges.getD j (0, 0)).2
      let s1 :=
        if direction = "increase" then
          let nt := pymin max_val (s.motor_targets.getD j 0 + step_size)
          { s with motor_targets := s.motor_targets.set j nt
                   action_text := "Motor " ++ toString (mi + 1) ++ " (" ++
                     motor_names.getD j "" ++ "): +" ++ toString step_size ++
                     " → " ++ toString (pyInt nt) }
        else if direction = "decrease" then
          let nt := pymax min_val (s.motor_targets.getD j 0 - step_size)
          { s with motor_targets := s.motor_targets.set j nt
                   action_text := "Motor " ++ toString (mi + 1) ++ " (" ++
                     motor_names.getD j "" ++ "): -" ++ toString step_size ++
                     " → " ++ toString (pyInt nt) }
        else s
      Except.ok (send_command sendOk s1)

/-- Body of the smoothing loop (lines 204-210) for one motor: move the
angle a tenth of the way to the target while the gap exceeds one half,
otherwise snap exactly to the target. -/
def smoothStep (target angle : ℚ) : ℚ :=
  let diff := target - angle
  if |diff| > 1/2 then angle + diff * (1/10) else target

/-- Embedding of `update_motor_angles` (lines 197-210): the Python for-loop
over `range(len(motor_targets))`, updating the angle list in place one
index at a time. -/
def update_motor_angles (targets angles : List ℚ) : List ℚ :=
  (List.range targets.length).foldl
    (fun acc i => acc.set i (smoothStep (targets.getD i 0) (acc.getD i 0))) angles

/-- One smoothing tick lifted to the program state. -/
def tick_smoothing (s : RobotState) : RobotState :=
  { s with motor_angles := update_motor_angles s.motor_targets s.motor_angles }

/-- Pygame key code for ESCAPE. -/
def K_ESCAPE : ℕ := 27

/-- Embedding of `key_mapping` (lines 265-279): pygame key codes for
q/a, w/s, e/d, r/f, t/g, y/h mapped to (motor index, direction). -/
def key_mapping : List (ℕ × ℤ × String) :=
  [(113, 0, "increase"), (97, 0, "decrease"),
   (119, 1, "increase"), (115, 1, "decrease"),
   (101, 2, "increase"), (100, 2, "decrease"),
   (114, 3, "increase"), (102, 3, "decrease"),
   (116, 4, "increase"), (103, 4, "decrease"),
   (121, 5, "increase"), (104, 5, "decrease")]

/-- Dictionary lookup `key_mapping[k]` guarded by `k in key_mapping`. -/
def lookupKey (k : ℕ) : Option (ℤ × String) :=
  (key_mapping.find? (fun p => p.1 == k)).map (fun p => p.2)

/-- Python dict assignment on an association list kept in insertion order:
replace the value in place when the key is present, append otherwise. -/
def dictSet (l : List (ℕ × ℕ)) (k v : ℕ) : List (ℕ × ℕ) :=
  if l.any (fun p => p.1 == k) then
    l.map (fun p => if p.1 = k then (k, v) else p)
  else l ++ [(k, v)]

/-- Python `dict.get(k, d)` on an association list. -/
def dictGetD (l : List (ℕ × ℕ)) (k d : ℕ) : ℕ :=
  match l.find? (fun p => p.1 == k) with
  | some p => p.2
  | none => d

/-- Pygame events relevant to the main loop. -/
inductive PyEvent where
  | quit
  | keydown (key : ℕ)
  | keyup (key : ℕ)
deriving Repr, DecidableEq

/-- State of the main loop: the robot state plus `keys_pressed` (a Python
dict mapping key codes to True, kept in insertion order, modelled by its
key list), `last_command_time`, and the `running` flag. -/
structure LoopState where
  robot : RobotState
  keys_pressed : List ℕ
  last_command_time : List (ℕ × ℕ)
  running : Bool
deriving Repr, DecidableEq

/-- Initial loop state (lines 18-26, 262). -/
def initLoop : LoopState :=
  { robot := initRobot, keys_pressed := [], last_command_time := [], running := true }

/-- Embedding of the event handling of one pygame event (lines 287-311).
QUIT and ESCAPE clear `running`; a key-down of a mapped key that is not
already held applies one immediate intent and schedules the first repeat
at `current_time + KEY_REPEAT_DELAY`; key-up drops the key from both
dictionaries. -/
def handle_event (sendOk : Bool) (current_time : ℕ) (s : LoopState) (e : PyEvent) :
    Except String LoopState :=
  match e with
  | PyEvent.quit => Except.ok { s with running := false }
  | PyEvent.keydown k =>
    if k = K_ESCAPE then Except.ok { s with running := false }
    else
      match lookupKey k with
      | some (mi, dir) =>
        if k ∈ s.keys_pressed then Except.ok s
        else do
          let robot ← update_robot_action sendOk s.robot
            ("Motor " ++ toString (mi + 1)) (some mi) dir FAST_STEP_SIZE
          Except.ok { s with robot := robot
                             keys_pressed := s.keys_pressed ++ [k]
                             last_command_time :=
                               dictSet s.last_command_time k (current_time + KEY_REPEAT_DELAY) }
      | none => Except.ok s
  | PyEvent.keyup k =>
    Except.ok { s with keys_pressed := s.keys_pressed.filter (fun x => !(x == k))
                       last_command_time :=
                         s.last_command_time.filter (fun p => !(p.1 == k)) }

/-- Body of the key-repeat loop (lines 314-324) for one held key: a mapped
key whose scheduled time has passed fires another intent and is
rescheduled at `current_time + KEY_REPEAT_INTERVAL`. -/
def repeat_step (sendOk : Bool) (current_time : ℕ) (st : LoopState) (k : ℕ) :
    Except String LoopState :=
  match lookupKey k with
  | some (mi, dir) =>
    if current_time ≥ dictGetD st.last_command_time k 0 then do
      let robot ← update_robot_action sendOk st.robot
        ("Motor " ++ toString (mi + 1)) (some mi) dir FAST_STEP_SIZE
      Except.ok { st with robot := robot
                          last_command_time :=
                            dictSet st.last_command_time k
                              (current_time + KEY_REPEAT_INTERVAL) }
    else Except.ok st
  | none => Except.ok st

/-- Embedding of the key-repeat loop (lines 313-324): iterate `repeat_step`
over the snapshot of currently held keys. -/
def process_key_repeat (sendOk : Bool) (current_time : ℕ) (s : LoopState) :
    Except String LoopState :=
  s.keys_pressed.foldlM (repeat_step sendOk current_time) s

/-- One iteration of the main while-loop (lines 283-358), with rendering
omitted: handle the tick's events, run the key-repeat loop, then run the
smoothing update. -/
def loop_tick (sendOk : Bool) (current_time : ℕ) (events : List PyEvent)
    (s : LoopState) : Except String LoopState := do
  let s1 ← events.foldlM (handle_event sendOk current_time) s
  let s2 ← process_key_repeat sendOk current_time s1
  Except.ok { s2 with robot := tick_smoothing s2.robot }

/-- Run a sequence of ticks, each given by its clock time and events. -/
def run_loop (sendOk : Bool) (ticks : List (ℕ × List PyEvent)) (s : LoopState) :
    Except String LoopState :=
  ticks.foldlM (fun st t => loop_tick sendOk t.1 t.2 st) s

/-- Operations of the clamping/smoothing invariant: a clamped adjustment of
one joint (via `update_robot_action`) or a smoothing tick. -/
inductive Op where
  | adjust (i : Fin 6) (dir : String) (step : ℚ)
  | tick
deriving Repr, DecidableEq

/-- Apply one operation to the robot state. -/
def applyOp (s : RobotState) : Op → Except String RobotState
  | Op.adjust i dir step => update_robot_action true s "" (some (i : ℤ)) dir step
  | Op.tick => Except.ok (tick_smoothing s)

/-- Run a list of operations. -/
def runOps (s : RobotState) : List Op → Except String RobotState
  | [] => Except.ok s
  | op :: ops => do
    let s1 ← applyOp s op
    runOps s1 ops

/-- Adjustment steps are non-negative. -/
def stepNonneg : Op → Prop
  | Op.adjust _ _ step => 0 ≤ step
  | Op.tick => True

instance : DecidablePred stepNonneg := fun op =>
  match op with
  | Op.adjust _ _ step => inferInstanceAs (Decidable (0 ≤ step))
  | Op.tick => inferInstanceAs (Decidable True)

/-- A six-entry position list lies inside the per-motor ranges. -/
def inR (l : List ℚ) : Prop :=
  l.length = 6 ∧ ∀ i, i < 6 →
    (motor_ranges.getD i (0, 0)).1 ≤ l.getD i 0 ∧
    l.getD i 0 ≤ (motor_ranges.getD i (0, 0)).2

instance (l : List ℚ) : Decidable (inR l) := by
  unfold inR; exact inferInstance

instance {ε α : Type} [DecidableEq ε] [DecidableEq α] : DecidableEq (Except ε α) :=
  fun a b =>
    match a, b with
    | Except.ok x, Except.ok y =>
      if h : x = y then isTrue (by rw [h]) else isFalse (by intro hc; cases hc; exact h rfl)
    | Except.error x, Except.error y =>
      if h : x = y then isTrue (by rw [h]) else isFalse (by intro hc; cases hc; exact h rfl)
    | Except.ok _, Except.error _ => isFalse (by intro hc; cases hc)
    | Except.error _, Except.ok _ => isFalse (by intro hc; cases hc)

/- ### Helper lemmas about lists, the smoothing loop, and the step rule -/

lemma getD_set_lt (l : List ℚ) (n : ℕ) (v : ℚ) (h : n < l.length) :
    (l.set n v).getD n 0 = v := by
  rw [List.getD_eq_getElem?_getD, List.getElem?_set_eq_of_lt v h]
  rfl

lemma getD_set_ne (l : List ℚ) (m n : ℕ) (v : ℚ) (h : m ≠ n) :
    (l.set m v).getD n 0 = l.getD n 0 := by
  rw [List.getD_eq_getElem?_getD, List.getElem?_set_ne h, List.getD_eq_getElem?_getD]

lemma setFold_spec (f : ℕ → ℚ → ℚ) (n : ℕ) (a : List ℚ) (hn : n ≤ a.length) :
    ((List.range n).foldl (fun acc i => acc.set i (f i (acc.getD i 0))) a).length = a.length ∧
    ∀ j, ((List.range n).foldl (fun acc i => acc.set i (f i (acc.getD i 0))) a).getD j 0 =
      if j < n then f j (a.getD j 0) else a.getD j 0 := by
  induction n with
  | zero => simp
  | succ n ih =>
    rw [List.range_succ, List.foldl_append]
    obtain ⟨ihl, ihp⟩ := ih (Nat.le_of_succ_le hn)
    simp only [List.foldl_cons, List.foldl_nil]
    constructor
    · rw [List.length_set, ihl]
    · intro j
      rcases Nat.lt_trichotomy j n with hj | hj | hj
      · rw [getD_set_ne _ _ _ _ (Nat.ne_of_gt hj), ihp j, if_pos hj,
          if_pos (Nat.lt_succ_of_lt hj)]
      · subst hj
        rw [getD_set_lt _ _ _ (by rw [ihl]; omega), ihp j, if_neg (Nat.lt_irrefl j),
          if_pos (Nat.lt_succ_self j)]
      · rw [getD_set_ne _ _ _ _ (Nat.ne_of_lt hj), ihp j, if_neg (by omega), if_neg (by omega)]

lemma update_motor_angles_length (t a : List ℚ) (h : t.length ≤ a.length) :
    (update_motor_angles t a).length = a.length :=
  (setFold_spec _ _ _ h).1

lemma update_motor_angles_getD (t a : List ℚ) (h : t.length ≤ a.length) (j : ℕ) :
    (update_motor_angles t a).getD j 0 =
      if j < t.length then smoothStep (t.getD j 0) (a.getD j 0) else a.getD j 0 :=
  (setFold_spec _ _ _ h).2 j

lemma pymin_eq_min (a b : ℚ) : pymin a b = min a b := by
  simp [pymin, min_def]

lemma pymax_eq_max (a b : ℚ) : pymax a b = max a b := by
  rw [pymax, max_def]
  rcases le_or_lt b a with h | h
  · rw [if_pos h]
    rcases eq_or_lt_of_le h with h1 | h1
    · simp [h1]
    · rw [if_neg (not_le_of_lt h1)]
  · rw [if_neg (not_le_of_lt h), if_pos (le_of_lt h)]

lemma smoothStep_between_le (t c : ℚ) (h : c ≤ t) :
    c ≤ smoothStep t c ∧ smoothStep t c ≤ t := by
  rw [smoothStep]
  split
  · constructor <;> nlinarith
  · exact ⟨h, le_refl t⟩

lemma smoothStep_between_ge (t c : ℚ) (h : t ≤ c) :
    t ≤ smoothStep t c ∧ smoothStep t c ≤ c := by
  rw [smoothStep]
  split
  · constructor <;> nlinarith
  · exact ⟨le_refl t, h⟩

lemma smoothStep_contracts (t c : ℚ) (h : |t - c| > 1/2) :
    |t - smoothStep t c| < |t - c| := by
  rw [smoothStep, if_pos h]
  have he : t - (c + (t - c) * (1/10)) = (t - c) * (9/10) := by ring
  have h910 : |(9/10 : ℚ)| = 9/10 := by
    rw [abs_of_pos]
    norm_num
  rw [he, abs_mul, h910]
  have h0 : 0 < |t - c| := lt_trans (by norm_num) h
  nlinarith

lemma smoothStep_snap (t c : ℚ) (h : |t - c| ≤ 1/2) : smoothStep t c = t := by
  rw [smoothStep, if_neg (not_lt_of_le h)]

lemma smoothStep_fixed (t : ℚ) : smoothStep t t = t := by
  rw [smoothStep]
  simp

lemma str_append_assoc (a b c : String) : (a ++ b) ++ c = a ++ (b ++ c) := by
  apply String.ext
  simp [List.append_assoc]

lemma motor_ranges_length : motor_ranges.length = 6 := rfl

lemma pyIdx_of_lt (len j : ℕ) (h : j < len) : pyIdx len (j : ℤ) = some j := by
  rw [pyIdx, if_pos ⟨Int.ofNat_nonneg j, by exact_mod_cast h⟩]
  simp

lemma pyIdx_of_nonneg_lt (len : ℕ) (i : ℤ) (h0 : 0 ≤ i) (h : i < (len : ℤ)) :
    pyIdx len i = some i.toNat := by
  rw [pyIdx, if_pos ⟨h0, h⟩]

lemma pyIdx_of_neg (len : ℕ) (i : ℤ) (h1 : -(len : ℤ) ≤ i) (h2 : i < 0) :
    pyIdx len i = some (i + (len : ℤ)).toNat := by
  rw [pyIdx, if_neg (by omega), if_pos ⟨h1, h2⟩]

lemma pyIdx_of_out (len : ℕ) (i : ℤ) (h : (len : ℤ) ≤ i ∨ i < -(len : ℤ)) :
    pyIdx len i = none := by
  rw [pyIdx, if_neg (by omega), if_neg (by omega)]

/-- Target list produced by one clamped adjustment of joint `j`, as
performed by `update_robot_action`. -/
def adjustTargets (s : RobotState) (j : ℕ) (dir : String) (step : ℚ) : List ℚ :=
  if dir = "increase" then
    s.motor_targets.set j (pymin (motor_ranges.getD j (0, 0)).2 (s.motor_targets.getD j 0 + step))
  else if dir = "decrease" then
    s.motor_targets.set j (pymax (motor_ranges.getD j (0, 0)).1 (s.motor_targets.getD j 0 - step))
  else s.motor_targets

lemma ura_ok (ok : Bool) (s : RobotState) (a : String) (mi : ℤ) (dir : String) (step : ℚ)
    (j : ℕ) (hidx : pyIdx motor_ranges.length mi = some j) :
    ∃ s1, update_robot_action ok s a (some mi) dir step = Except.ok s1 ∧
      s1.motor_targets = adjustTargets s j dir step ∧
      s1.motor_angles = s.motor_angles ∧
      s1.sent = (if ok then s.sent ++ [encode_command (adjustTargets s j dir step)] else s.sent) := by
  rw [update_robot_action, hidx]
  by_cases hinc : dir = "increase"
  · subst hinc
    refine ⟨_, rfl, ?_, ?_, ?_⟩ <;> simp [send_command, adjustTargets] <;> cases ok <;> simp
  · by_cases hdec : dir = "decrease"
    · subst hdec
      refine ⟨_, rfl, ?_, ?_, ?_⟩ <;>
        simp [send_command, adjustTargets, hinc] <;> cases ok <;> simp
    · refine ⟨_, rfl, ?_, ?_, ?_⟩ <;>
        simp [send_command, adjustTargets, hinc, hdec] <;> cases ok <;> simp

/-- A state whose angles still have to travel toward the targets, used to
exercise the smoothing theorems on concrete data. -/
def smoothTest : RobotState :=
  { motor_targets := [512, 512, 512, 956, 800, 430]
    motor_angles := [0, 600, 104, 512, 1023, 430]
    action_text := "System Ready"
    sent := [] }

lemma ranges_min_le_max : ∀ j, j < 6 →
    (motor_ranges.getD j (0, 0)).1 ≤ (motor_ranges.getD j (0, 0)).2 := by decide

lemma adjust_preserves (s : RobotState) (j : ℕ) (dir : String) (step : ℚ)
    (hj : j < 6) (hstep : 0 ≤ step) (h : inR s.motor_targets) :
    inR (adjustTargets s j dir step) := by
  obtain ⟨hlen, hbnd⟩ := h
  rw [adjustTargets]
  by_cases hinc : dir = "increase"
  · rw [if_pos hinc]
    refine ⟨by rw [List.length_set, hlen], ?_⟩
    intro i hi
    by_cases hij : j = i
    · subst hij
      rw [getD_set_lt _ _ _ (by rw [hlen]; exact hj), pymin_eq_min]
      constructor
      · exact le_min (ranges_min_le_max j hj) (le_add_of_le_of_nonneg (hbnd j hj).1 hstep)
      · exact min_le_left _ _
    · rw [getD_set_ne _ _ _ _ hij]
      exact hbnd i hi
  · rw [if_neg hinc]
    by_cases hdec : dir = "decrease"
    · rw [if_pos hdec]
      refine ⟨by rw [List.length_set, hlen], ?_⟩
      intro i hi
      by_cases hij : j = i
      · subst hij
        rw [getD_set_lt _ _ _ (by rw [hlen]; exact hj), pymax_eq_max]
        constructor
        · exact le_max_left _ _
        · exact max_le (ranges_min_le_max j hj)
            (le_trans (sub_le_self _ hstep) (hbnd j hj).2)
      · rw [getD_set_ne _ _ _ _ hij]
        exact hbnd i hi
    · rw [if_neg hdec]
      exact ⟨hlen, hbnd⟩

lemma smooth_preserves (t a : List ℚ) (ht : inR t) (ha : inR a) :
    inR (update_motor_angles t a) := by
  obtain ⟨htl, htb⟩ := ht
  obtain ⟨hal, hab⟩ := ha
  have hle : t.length ≤ a.length := by rw [htl, hal]
  refine ⟨by rw [update_motor_angles_length _ _ hle, hal], ?_⟩
  intro i hi
  rw [update_motor_angles_getD _ _ hle i, if_pos (by rw [htl]; exact hi)]
  rcases le_total (a.getD i 0) (t.getD i 0) with hc | hc
  · obtain ⟨h1, h2⟩ := smoothStep_between_le (t.getD i 0) (a.getD i 0) hc
    exact ⟨le_trans (hab i hi).1 h1, le_trans h2 (htb i hi).2⟩
  · obtain ⟨h1, h2⟩ := smoothStep_between_ge (t.getD i 0) (a.getD i 0) hc
    exact ⟨le_trans (htb i hi).1 h1, le_trans h2 (hab i hi).2⟩

lemma run_preserves : ∀ (ops : List Op) (s0 : RobotState),
    (∀ op ∈ ops, stepNonneg op) → inR s0.motor_targets → inR s0.motor_angles →
    ∃ s1, runOps s0 ops = Except.ok s1 ∧ inR s1.motor_targets ∧ inR s1.motor_angles := by
  intro ops
  induction ops with
  | nil => exact fun s0 _ h1 h2 => ⟨s0, rfl, h1, h2⟩
  | cons op ops ih =>
    intro s0 hsteps h1 h2
    cases op with
    | adjust i dir step =>
      have hidx : pyIdx motor_ranges.length ((i : ℕ) : ℤ) = some (i : ℕ) := by
        rw [motor_ranges_length]
        exact pyIdx_of_lt 6 (i : ℕ) i.isLt
      obtain ⟨s1, hs1, htg, hang, -⟩ :=
        ura_ok true s0 "" ((i : ℕ) : ℤ) dir step (i : ℕ) hidx
      have hstep : 0 ≤ step := hsteps _ (List.mem_cons_self _ _)
      have h1s : inR s1.motor_targets := by
        rw [htg]
        exact adjust_preserves s0 (i : ℕ) dir step i.isLt hstep h1
      have h2s : inR s1.motor_angles := by
        rw [hang]
        exact h2
      obtain ⟨s2, hs2, h3, h4⟩ :=
        ih s1 (fun op hop => hsteps op (List.mem_cons_of_mem _ hop)) h1s h2s
      refine ⟨s2, ?_, h3, h4⟩
      rw [runOps]
      show (do
        let s1 ← applyOp s0 (Op.adjust i dir step)
        runOps s1 ops) = Except.ok s2
      rw [applyOp, hs1]
      simpa using hs2
    | tick =>
      have h1s : inR (tick_smoothing s0).motor_targets := h1
      have h2s : inR (tick_smoothing s0).motor_angles := smooth_preserves _ _ h1 h2
      obtain ⟨s2, hs2, h3, h4⟩ :=
        ih _ (fun op hop => hsteps op (List.mem_cons_of_mem _ hop)) h1s h2s
      refine ⟨s2, ?_, h3, h4⟩
      rw [runOps]
      show (do
        let s1 ← applyOp s0 Op.tick
        runOps s1 ops) = Except.ok s2
      rw [applyOp]
      simpa using hs2

lemma lookupKey_valid (k : ℕ) (mi : ℤ) (dir : String) (h : lookupKey k = some (mi, dir)) :
    0 ≤ mi ∧ mi < 6 ∧ k ≠ K_ESCAPE := by
  rw [lookupKey] at h
  cases hf : key_mapping.find? (fun p => p.1 == k) with
  | none => rw [hf] at h; cases h
  | some p =>
    rw [hf] at h
    simp only [Option.map_some'] at h
    have hm := List.mem_of_find?_eq_some hf
    have hk := List.find?_some hf
    fin_cases hm <;> simp_all [K_ESCAPE] <;> omega

lemma find?_map_dictSet (l : List (ℕ × ℕ)) (k v k1 : ℕ) (h : k1 ≠ k) :
    List.find? (fun p => p.1 == k1) (l.map (fun p => if p.1 = k then (k, v) else p)) =
    List.find? (fun p => p.1 == k1) l := by
  induction l with
  | nil => rfl
  | cons p l ih =>
    simp only [List.map_cons]
    by_cases hp : p.1 = k
    · rw [if_pos hp, List.find?_cons_of_neg _ (by simp [Ne.symm h]),
        List.find?_cons_of_neg _ (by simp [hp]; exact fun e => h e.symm), ih]
    · rw [if_neg hp]
      by_cases hq : p.1 = k1
      · rw [List.find?_cons_of_pos _ (by simp [hq]), List.find?_cons_of_pos _ (by simp [hq])]
      · rw [List.find?_cons_of_neg _ (by simp [hq]), List.find?_cons_of_neg _ (by simp [hq]), ih]

lemma dictGetD_dictSet_self (l : List (ℕ × ℕ)) (k v d : ℕ) :
    dictGetD (dictSet l k v) k d = v := by
  rw [dictSet]
  by_cases hmem : l.any (fun p => p.1 == k)
  · rw [if_pos hmem, dictGetD]
    induction l with
    | nil => simp at hmem
    | cons p l ih =>
      by_cases hp : p.1 = k
      · simp [hp]
      · simp only [List.map_cons, if_neg hp, List.find?]
        rw [show (p.1 == k) = false by simp [hp]]
        simp only [List.any_cons] at hmem
        rcases Bool.or_eq_true_iff.mp hmem with h | h
        · simp [hp] at h
        · exact ih h
  · rw [if_neg hmem, dictGetD]
    induction l with
    | nil => simp
    | cons p l ih =>
      simp only [List.any_cons, Bool.or_eq_true_iff, not_or] at hmem
      simp only [List.cons_append, List.find?]
      rw [show (p.1 == k) = false from by simpa using hmem.1]
      exact ih (by simpa using hmem.2)

lemma dictGetD_dictSet_ne (l : List (ℕ × ℕ)) (k k1 v d : ℕ) (h : k1 ≠ k) :
    dictGetD (dictSet l k v) k1 d = dictGetD l k1 d := by
  rw [dictSet]
  by_cases hmem : l.any (fun p => p.1 == k)
  · rw [if_pos hmem, dictGetD, dictGetD, find?_map_dictSet l k v k1 h]
  · rw [if_neg hmem, dictGetD, dictGetD, List.find?_append,
      List.find?_cons_of_neg _ (by simp [Ne.symm h])]
    simp

/- ### Claim theorems -/

/-- C1: over any sequence of clamped adjustments (any joint 0..5, any
direction string, any non-negative step) interleaved with smoothing ticks,
starting inside the ranges, every joint's target and current stay inside
its range; moreover "increase" sets the target to
min(max, target + step), "decrease" sets it to max(min, target - step),
and a smoothing step keeps the current between its old value and the
target. -/
theorem C1_clamping_invariant :
    (∀ (ops : List Op) (s0 : RobotState), (∀ op ∈ ops, stepNonneg op) →
      inR s0.motor_targets → inR s0.motor_angles →
      ∃ s1, runOps s0 ops = Except.ok s1 ∧ inR s1.motor_targets ∧ inR s1.motor_angles) ∧
    (∀ (s : RobotState) (i : Fin 6) (step : ℚ), ∃ s1,
      update_robot_action true s "" (some ((i : ℕ) : ℤ)) "increase" step = Except.ok s1 ∧
      s1.motor_targets = s.motor_targets.set (i : ℕ)
        (min (motor_ranges.getD (i : ℕ) (0, 0)).2 (s.motor_targets.getD (i : ℕ) 0 + step))) ∧
    (∀ (s : RobotState) (i : Fin 6) (step : ℚ), ∃ s1,
      update_robot_action true s "" (some ((i : ℕ) : ℤ)) "decrease" step = Except.ok s1 ∧
      s1.motor_targets = s.motor_targets.set (i : ℕ)
        (max (motor_ranges.getD (i : ℕ) (0, 0)).1 (s.motor_targets.getD (i : ℕ) 0 - step))) ∧
    (∀ t c : ℚ, min c t ≤ smoothStep t c ∧ smoothStep t c ≤ max c t) := by
  have hidx : ∀ i : Fin 6, pyIdx motor_ranges.length ((i : ℕ) : ℤ) = some (i : ℕ) := by
    intro i
    rw [motor_ranges_length]
    exact pyIdx_of_lt 6 (i : ℕ) i.isLt
  refine ⟨run_preserves, ?_, ?_, ?_⟩
  · intro s i step
    obtain ⟨s1, hs1, htg, -, -⟩ := ura_ok true s "" ((i : ℕ) : ℤ) "increase" step (i : ℕ) (hidx i)
    refine ⟨s1, hs1, ?_⟩
    rw [htg, adjustTargets, if_pos rfl, pymin_eq_min]
  · intro s i step
    obtain ⟨s1, hs1, htg, -, -⟩ := ura_ok true s "" ((i : ℕ) : ℤ) "decrease" step (i : ℕ) (hidx i)
    refine ⟨s1, hs1, ?_⟩
    rw [htg, adjustTargets, if_neg (by decide), if_pos rfl, pymax_eq_max]
  · intro t c
    rcases le_total c t with h | h
    · obtain ⟨h1, h2⟩ := smoothStep_between_le t c h
      exact ⟨le_trans (min_le_left _ _) h1, le_trans h2 (le_max_right _ _)⟩
    · obtain ⟨h1, h2⟩ := smoothStep_between_ge t c h
      exact ⟨le_trans (min_le_right _ _) h1, le_trans h2 (le_max_left _ _)⟩

/-- Witness for C1: a concrete run of adjustments and ticks from the
initial state stays inside all ranges. -/
theorem C1_clamping_invariant_witness :
    ∃ s1, runOps initRobot
        [Op.adjust 1 "increase" 3, Op.tick, Op.adjust 0 "decrease" 5, Op.tick] =
        Except.ok s1 ∧ inR s1.motor_targets ∧ inR s1.motor_angles :=
  C1_clamping_invariant.1 _ initRobot (by decide) (by decide) (by decide)

/-- C2: the command encoder, applied to the six target values, produces
exactly the ASCII string of the six values truncated (not rounded) to
integers, in joint order 0..5, separated by single commas, terminated by a
single star with no trailing newline; in particular encoding targets
[1,2,3,4,5,6] yields "1,2,3,4,5,6*". -/
theorem C2_encode_wire_contract :
    (∀ ts : List ℚ, ts.length = 6 → encode_command ts = spec_encode ts) ∧
    encode_command [1, 2, 3, 4, 5, 6] = "1,2,3,4,5,6*" := by
  constructor
  · intro ts h
    rcases ts with _ | ⟨a, _ | ⟨b, _ | ⟨c, _ | ⟨d, _ | ⟨e, _ | ⟨f, _ | ⟨g, rest⟩⟩⟩⟩⟩⟩⟩ <;>
      simp at h
    calc encode_command [a, b, c, d, e, f]
        = toString (pyInt a) ++ "," ++ toString (pyInt b) ++ "," ++ toString (pyInt c) ++ "," ++
          toString (pyInt d) ++ "," ++ toString (pyInt e) ++ "," ++ toString (pyInt f) ++ "*" :=
          rfl
      _ = spec_encode [a, b, c, d, e, f] := by
          simp only [spec_encode, joinComma, List.map_cons, List.map_nil, str_append_assoc]
  · exact of_decide_eq_true (by with_unfolding_all rfl)

/-- Witness for C2 at a concrete six-element target list. -/
theorem C2_encode_wire_contract_witness :
    encode_command [(512 : ℚ), 512, 512, 956, 800, 430] =
      spec_encode [(512 : ℚ), 512, 512, 956, 800, 430] :=
  C2_encode_wire_contract.1 _ rfl

/-- C3: one smoothing tick updates, for every one of the six joints
independently, the current angle as follows: with diff = target - current,
if diff exceeds one half in absolute value the new current is
current + diff * (1/10), otherwise the new current is exactly the target;
the targets, status text and transcript are untouched. -/
theorem C3_tick_smoothing_rule (s : RobotState)
    (ht : s.motor_targets.length = 6) (ha : s.motor_angles.length = 6) :
    (tick_smoothing s).motor_targets = s.motor_targets ∧
    (tick_smoothing s).action_text = s.action_text ∧
    (tick_smoothing s).sent = s.sent ∧
    (tick_smoothing s).motor_angles.length = 6 ∧
    ∀ i, i < 6 →
      (tick_smoothing s).motor_angles.getD i 0 =
        (if |s.motor_targets.getD i 0 - s.motor_angles.getD i 0| > 1/2 then
          s.motor_angles.getD i 0 +
            (s.motor_targets.getD i 0 - s.motor_angles.getD i 0) * (1/10)
        else s.motor_targets.getD i 0) := by
  have hle : s.motor_targets.length ≤ s.motor_angles.length := by rw [ht, ha]
  refine ⟨rfl, rfl, rfl, ?_, ?_⟩
  · rw [tick_smoothing]
    simpa [update_motor_angles_length _ _ hle] using ha
  · intro i hi
    rw [tick_smoothing]
    have := update_motor_angles_getD s.motor_targets s.motor_angles hle i
    rw [this, if_pos (by rw [ht]; exact hi)]
    rfl

/-- Witness for C3: the first joint of `smoothTest` moves a tenth of the
way from 0 toward 512. -/
theorem C3_tick_smoothing_rule_witness :
    (tick_smoothing smoothTest).motor_angles.getD 0 0 =
      (if |smoothTest.motor_targets.getD 0 0 - smoothTest.motor_angles.getD 0 0| > 1/2 then
        smoothTest.motor_angles.getD 0 0 +
          (smoothTest.motor_targets.getD 0 0 - smoothTest.motor_angles.getD 0 0) * (1/10)
      else smoothTest.motor_targets.getD 0 0) :=
  (C3_tick_smoothing_rule smoothTest rfl rfl).2.2.2.2 0 (by decide)

/-- C4: with the target fixed, one smoothing step strictly decreases the
gap while it exceeds one half, never overshoots (the new value stays
between the old current and the target), snaps exactly to the target once
the gap is at most one half, and the target is a fixed point of further
ticks. -/
theorem C4_smoothing_convergence (t c : ℚ) :
    (|t - c| > 1/2 → |t - smoothStep t c| < |t - c|) ∧
    (c ≤ t → c ≤ smoothStep t c ∧ smoothStep t c ≤ t) ∧
    (t ≤ c → t ≤ smoothStep t c ∧ smoothStep t c ≤ c) ∧
    (|t - c| ≤ 1/2 → smoothStep t c = t) ∧
    (∀ n : ℕ, (smoothStep t)^[n] t = t) := by
  refine ⟨smoothStep_contracts t c, smoothStep_between_le t c, smoothStep_between_ge t c,
    smoothStep_snap t c, ?_⟩
  intro n
  induction n with
  | zero => rfl
  | succ n ih => rw [Function.iterate_succ_apply', ih, smoothStep_fixed]

/-- Witness for C4 at target 10, current 0: the gap strictly shrinks. -/
theorem C4_smoothing_convergence_witness :
    |(10 : ℚ) - smoothStep 10 0| < |(10 : ℚ) - 0| :=
  (C4_smoothing_convergence 10 0).1 (of_decide_eq_true (by with_unfolding_all rfl))

/-- C5: for a mapped key, a key-down while not held emits exactly one
intent immediately (one frame transmitted) and schedules the next fire at
now + KEY_REPEAT_DELAY; on each later tick while held, an intent fires if
and only if the tick time has reached the scheduled time, rescheduling it
to now + KEY_REPEAT_INTERVAL; key-up removes the key and its schedule, so
a tick with no held keys fires nothing. -/
theorem C5_debounce (s : LoopState) (k : ℕ) (mi : ℤ) (dir : String) (now : ℕ)
    (hmap : lookupKey k = some (mi, dir)) :
    (k ∉ s.keys_pressed →
      ∃ s1, handle_event true now s (PyEvent.keydown k) = Except.ok s1 ∧
        s1.robot.sent.length = s.robot.sent.length + 1 ∧
        s1.keys_pressed = s.keys_pressed ++ [k] ∧
        dictGetD s1.last_command_time k 0 = now + KEY_REPEAT_DELAY) ∧
    (s.keys_pressed = [k] →
      ∃ s1, process_key_repeat true now s = Except.ok s1 ∧
        ((now ≥ dictGetD s.last_command_time k 0 →
          s1.robot.sent.length = s.robot.sent.length + 1 ∧
          dictGetD s1.last_command_time k 0 = now + KEY_REPEAT_INTERVAL) ∧
         (now < dictGetD s.last_command_time k 0 → s1 = s))) ∧
    (∃ s1, handle_event true now s (PyEvent.keyup k) = Except.ok s1 ∧
      k ∉ s1.keys_pressed ∧ (∀ v, (k, v) ∉ s1.last_command_time) ∧
      (s1.keys_pressed = [] → process_key_repeat true now s1 = Except.ok s1)) := by
  obtain ⟨h0, h6, hesc⟩ := lookupKey_valid k mi dir hmap
  have hidx : pyIdx motor_ranges.length mi = some mi.toNat := by
    rw [motor_ranges_length]
    exact pyIdx_of_nonneg_lt 6 mi h0 h6
  refine ⟨?_, ?_, ?_⟩
  · intro hnp
    obtain ⟨r1, hr1, -, -, hsent⟩ :=
      ura_ok true s.robot ("Motor " ++ toString (mi + 1)) mi dir FAST_STEP_SIZE mi.toNat hidx
    refine ⟨LoopState.mk r1 (s.keys_pressed ++ [k])
        (dictSet s.last_command_time k (now + KEY_REPEAT_DELAY)) s.running,
      ?_, ?_, rfl, dictGetD_dictSet_self _ _ _ _⟩
    · rw [handle_event, if_neg hesc, hmap]
      simp only [if_neg hnp, hr1]
      rfl
    · simp [hsent]
  · intro hkp
    rw [process_key_repeat, hkp]
    by_cases hdue : now ≥ dictGetD s.last_command_time k 0
    · obtain ⟨r1, hr1, -, -, hsent⟩ :=
        ura_ok true s.robot ("Motor " ++ toString (mi + 1)) mi dir FAST_STEP_SIZE mi.toNat hidx
      refine ⟨LoopState.mk r1 s.keys_pressed
          (dictSet s.last_command_time k (now + KEY_REPEAT_INTERVAL)) s.running,
        ?_, ?_, ?_⟩
      · simp only [List.foldlM, repeat_step, hmap, if_pos hdue, hr1]
        rfl
      · intro _
        exact ⟨by simp [hsent], dictGetD_dictSet_self _ _ _ _⟩
      · intro hlt
        omega
    · refine ⟨s, ?_, ?_, fun _ => rfl⟩
      · simp only [List.foldlM, repeat_step, hmap, if_neg hdue]
        rfl
      · intro hge
        exact absurd hge hdue
  · refine ⟨_, rfl, ?_, ?_, ?_⟩
    · intro hc
      rcases List.mem_filter.mp hc with ⟨-, hf⟩
      simp at hf
    · intro v hc
      rcases List.mem_filter.mp hc with ⟨-, hf⟩
      simp at hf
    · intro hempty
      rw [process_key_repeat, hempty]
      rfl

/-- Witness for C5: pressing q (code 113) at time 0 in the initial state
emits one frame and schedules the repeat at time 50. -/
theorem C5_debounce_witness :
    ∃ s1, handle_event true 0 initLoop (PyEvent.keydown 113) = Except.ok s1 ∧
      s1.robot.sent.length = initLoop.robot.sent.length + 1 ∧
      s1.keys_pressed = initLoop.keys_pressed ++ [113] ∧
      dictGetD s1.last_command_time 113 0 = 0 + KEY_REPEAT_DELAY :=
  (C5_debounce initLoop 113 0 "increase" 0 rfl).1 (by decide)


lemma repeat_fold_count (now : ℕ) : ∀ (ks : List ℕ) (st : LoopState), ks.Nodup →
    ∃ st1, List.foldlM (repeat_step true now) st ks = Except.ok st1 ∧
      st1.robot.sent.length = st.robot.sent.length +
        ks.countP (fun k => (lookupKey k).isSome &&
          decide (now ≥ dictGetD st.last_command_time k 0)) ∧
      st1.keys_pressed = st.keys_pressed := by
  intro ks
  induction ks with
  | nil =>
    intro st _
    exact ⟨st, rfl, by simp, rfl⟩
  | cons k ks ih =>
    intro st hnd
    obtain ⟨hknotin, hnd1⟩ := List.nodup_cons.mp hnd
    rw [List.foldlM_cons]
    cases hmap : lookupKey k with
    | none =>
      obtain ⟨st1, hf, hs, hk⟩ := ih st hnd1
      refine ⟨st1, ?_, ?_, hk⟩
      · rw [repeat_step, hmap]
        simpa using hf
      · rw [hs, List.countP_cons]
        simp [hmap]
    | some p =>
      rcases p with ⟨mi, dir⟩
      obtain ⟨h0, h6, -⟩ := lookupKey_valid k mi dir hmap
      have hidx : pyIdx motor_ranges.length mi = some mi.toNat := by
        rw [motor_ranges_length]
        exact pyIdx_of_nonneg_lt 6 mi h0 h6
      by_cases hdue : now ≥ dictGetD st.last_command_time k 0
      · obtain ⟨r1, hr1, -, -, hsent⟩ :=
          ura_ok true st.robot ("Motor " ++ toString (mi + 1)) mi dir FAST_STEP_SIZE mi.toNat hidx
        obtain ⟨st1, hf, hs, hk⟩ := ih
          (LoopState.mk r1 st.keys_pressed
            (dictSet st.last_command_time k (now + KEY_REPEAT_INTERVAL)) st.running) hnd1
        refine ⟨st1, ?_, ?_, hk⟩
        · rw [repeat_step, hmap]
          simp only [if_pos hdue, hr1]
          simpa using hf
        · rw [hs, List.countP_cons]
          have hcong : ks.countP (fun j => (lookupKey j).isSome &&
              decide (now ≥ dictGetD (dictSet st.last_command_time k
                (now + KEY_REPEAT_INTERVAL)) j 0)) =
              ks.countP (fun j => (lookupKey j).isSome &&
                decide (now ≥ dictGetD st.last_command_time j 0)) := by
            apply List.countP_congr
            intro j hj
            have hjk : j ≠ k := by
              intro e
              subst e
              exact hknotin hj
            rw [dictGetD_dictSet_ne _ _ _ _ _ hjk]
          simp only [hcong] at *
          simp [hsent, hmap, hdue]
          omega
      · obtain ⟨st1, hf, hs, hk⟩ := ih st hnd1
        refine ⟨st1, ?_, ?_, hk⟩
        · rw [repeat_step, hmap]
          simp only [if_neg hdue]
          simpa using hf
        · rw [hs, List.countP_cons]
          simp [hmap, hdue]

/-- A loop state with the q and w keys held and both repeat timers due,
used to exhibit the per-intent (non-coalesced) sending behavior. -/
def c6state : LoopState :=
  { robot := initRobot, keys_pressed := [113, 119],
    last_command_time := [(113, 0), (119, 0)], running := true }

/-- C6 counterexample: in one control-loop tick with two held keys (q and
w, both due), two command frames are transmitted, not one coalesced
frame. -/
theorem C6_coalescing_cex :
    (loop_tick true 100 [] c6state).map (fun s1 => s1.robot.sent.length) = Except.ok 2 := rfl

/-- C6 amended: in a tick with no new key events, exactly one command
frame is encoded and transmitted per applied intent: the transcript grows
by the number of held mapped keys whose repeat timer is due, not by at
most one. -/
theorem C6_per_intent_send (now : ℕ) (s : LoopState) (hnd : s.keys_pressed.Nodup) :
    ∃ s1, loop_tick true now [] s = Except.ok s1 ∧
      s1.robot.sent.length = s.robot.sent.length +
        s.keys_pressed.countP (fun k => (lookupKey k).isSome &&
          decide (now ≥ dictGetD s.last_command_time k 0)) := by
  obtain ⟨st1, hf, hs, -⟩ := repeat_fold_count now s.keys_pressed s hnd
  refine ⟨{ st1 with robot := tick_smoothing st1.robot }, ?_, ?_⟩
  · rw [loop_tick]
    simp only [List.foldlM_nil, process_key_repeat]
    rw [show (pure s : Except String LoopState) = Except.ok s from rfl]
    show (Except.ok s >>= fun s1 =>
      List.foldlM (repeat_step true now) s1 s1.keys_pressed >>= fun s2 =>
        Except.ok { s2 with robot := tick_smoothing s2.robot }) = _
    rw [show ∀ (x : LoopState) (f : LoopState → Except String LoopState),
        Except.ok x >>= f = f x from fun x f => rfl]
    rw [hf]
    rfl
  · show (tick_smoothing st1.robot).sent.length = _
    rw [show (tick_smoothing st1.robot).sent = st1.robot.sent from rfl]
    exact hs

/-- Witness for C6 amended: both held keys of `c6state` are due at time
100, so the tick sends exactly two frames. -/
theorem C6_per_intent_send_witness :
    ∃ s1, loop_tick true 100 [] c6state = Except.ok s1 ∧
      s1.robot.sent.length = c6state.robot.sent.length +
        c6state.keys_pressed.countP (fun k => (lookupKey k).isSome &&
          decide (100 ≥ dictGetD c6state.last_command_time k 0)) :=
  C6_per_intent_send 100 c6state (by decide)

/-- Forget the transcript of sent frames. -/
def eraseR (r : RobotState) : RobotState := { r with sent := [] }

/-- Forget the transcript of sent frames inside a loop state. -/
def eraseL (s : LoopState) : LoopState := { s with robot := eraseR s.robot }

lemma eraseR_eq_iff (r r' : RobotState) :
    eraseR r = eraseR r' ↔ r.motor_targets = r'.motor_targets ∧
      r.motor_angles = r'.motor_angles ∧ r.action_text = r'.action_text := by
  simp [eraseR, RobotState.mk.injEq]

lemma eraseL_eq_iff (s s' : LoopState) :
    eraseL s = eraseL s' ↔ eraseR s.robot = eraseR s'.robot ∧
      s.keys_pressed = s'.keys_pressed ∧
      s.last_command_time = s'.last_command_time ∧ s.running = s'.running := by
  simp [eraseL, eraseR, LoopState.mk.injEq, RobotState.mk.injEq]

lemma except_map_cases {α : Type} (f : α → α) {x y : Except String α}
    (h : x.map f = y.map f) :
    (∃ e, x = Except.error e ∧ y = Except.error e) ∨
    (∃ a b, x = Except.ok a ∧ y = Except.ok b ∧ f a = f b) := by
  cases x with
  | error e =>
    cases y with
    | error e' =>
      left
      simp [Except.map] at h
      exact ⟨e, rfl, by rw [h]⟩
    | ok b => simp [Except.map] at h
  | ok a =>
    cases y with
    | error e' => simp [Except.map] at h
    | ok b =>
      right
      simp [Except.map] at h
      exact ⟨a, b, rfl, rfl, h⟩

lemma erase_cong_ura (ok ok' : Bool) (r r' : RobotState) (h : eraseR r = eraseR r')
    (a : String) (mi : Option ℤ) (dir : String) (st : ℚ) :
    (update_robot_action ok r a mi dir st).map eraseR =
    (update_robot_action ok' r' a mi dir st).map eraseR := by
  obtain ⟨ht, han, hat⟩ := (eraseR_eq_iff r r').mp h
  cases mi with
  | none =>
    simp [update_robot_action, Except.map, eraseR, ht, han]
  | some mi =>
    rw [update_robot_action, update_robot_action]
    cases pyIdx motor_ranges.length mi with
    | none => rfl
    | some j =>
      by_cases hinc : dir = "increase"
      · simp only [if_pos hinc, Except.map, send_command]
        cases ok <;> cases ok' <;> simp [eraseR, ht, han, hat]
      · by_cases hdec : dir = "decrease"
        · simp only [if_neg hinc, if_pos hdec, Except.map, send_command]
          cases ok <;> cases ok' <;> simp [eraseR, ht, han, hat]
        · simp only [if_neg hinc, if_neg hdec, Except.map, send_command]
          cases ok <;> cases ok' <;> simp [eraseR, ht, han, hat]

lemma erase_cong_handle_event (ok ok' : Bool) (now : ℕ) (e : PyEvent) (s s' : LoopState)
    (h : eraseL s = eraseL s') :
    (handle_event ok now s e).map eraseL = (handle_event ok' now s' e).map eraseL := by
  obtain ⟨hrob, hk, hl, hr⟩ := (eraseL_eq_iff s s').mp h
  cases e with
  | quit =>
    simp only [handle_event, Except.map]
    exact congrArg Except.ok ((eraseL_eq_iff _ _).mpr ⟨hrob, hk, hl, rfl⟩)
  | keydown k =>
    rw [handle_event, handle_event]
    by_cases hesc : k = K_ESCAPE
    · simp only [if_pos hesc, Except.map]
      exact congrArg Except.ok ((eraseL_eq_iff _ _).mpr ⟨hrob, hk, hl, rfl⟩)
    · simp only [if_neg hesc]
      cases hmap : lookupKey k with
      | none =>
        simp only [Except.map]
        rw [h]
      | some p =>
        rcases p with ⟨mi, dir⟩
        by_cases hin : k ∈ s.keys_pressed
        · simp only [if_pos hin, if_pos (hk ▸ hin), Except.map]
          rw [h]
        · simp only [if_neg hin, if_neg (hk ▸ hin)]
          have hcong := erase_cong_ura ok ok' s.robot s'.robot hrob
            ("Motor " ++ toString (mi + 1)) (some mi) dir FAST_STEP_SIZE
          rcases except_map_cases eraseR hcong with ⟨msg, hx, hy⟩ | ⟨r1, r1', hx, hy, hrel⟩
          · rw [hx, hy]
            rfl
          · rw [hx, hy]
            show (Except.ok _).map eraseL = (Except.ok _).map eraseL
            simp only [Except.map]
            exact congrArg Except.ok ((eraseL_eq_iff _ _).mpr
              ⟨hrel, by rw [hk], by rw [hl], hr⟩)
  | keyup k =>
    simp only [handle_event, Except.map]
    exact congrArg Except.ok ((eraseL_eq_iff _ _).mpr ⟨hrob, by rw [hk], by rw [hl], hr⟩)

lemma erase_cong_repeat_step (ok ok' : Bool) (now : ℕ) (k : ℕ) (s s' : LoopState)
    (h : eraseL s = eraseL s') :
    (repeat_step ok now s k).map eraseL = (repeat_step ok' now s' k).map eraseL := by
  obtain ⟨hrob, hk, hl, hr⟩ := (eraseL_eq_iff s s').mp h
  rw [repeat_step, repeat_step]
  cases hmap : lookupKey k with
  | none =>
    simp only [Except.map]
    rw [h]
  | some p =>
    rcases p with ⟨mi, dir⟩
    rw [hl]
    by_cases hdue : now ≥ dictGetD s'.last_command_time k 0
    · simp only [if_pos hdue]
      have hcong := erase_cong_ura ok ok' s.robot s'.robot hrob
        ("Motor " ++ toString (mi + 1)) (some mi) dir FAST_STEP_SIZE
      rcases except_map_cases eraseR hcong with ⟨msg, hx, hy⟩ | ⟨r1, r1', hx, hy, hrel⟩
      · rw [hx, hy]
        rfl
      · rw [hx, hy]
        show (Except.ok _).map eraseL = (Except.ok _).map eraseL
        simp only [Except.map]
        exact congrArg Except.ok ((eraseL_eq_iff _ _).mpr ⟨hrel, hk, rfl, hr⟩)
    · simp only [if_neg hdue]
      simp only [Except.map]
      rw [h]

lemma except_ok_bind {α β : Type} (a : α) (f : α → Except String β) :
    (Except.ok a >>= f) = f a := rfl

lemma erase_cong_tick_smoothing (r r' : RobotState) (h : eraseR r = eraseR r') :
    eraseR (tick_smoothing r) = eraseR (tick_smoothing r') := by
  obtain ⟨ht, han, hat⟩ := (eraseR_eq_iff r r').mp h
  rw [eraseR_eq_iff]
  refine ⟨ht, ?_, hat⟩
  show update_motor_angles r.motor_targets r.motor_angles =
    update_motor_angles r'.motor_targets r'.motor_angles
  rw [ht, han]

lemma erase_cong_fold_events (ok ok' : Bool) (now : ℕ) :
    ∀ (events : List PyEvent) (s s' : LoopState), eraseL s = eraseL s' →
    (events.foldlM (handle_event ok now) s).map eraseL =
    (events.foldlM (handle_event ok' now) s').map eraseL := by
  intro events
  induction events with
  | nil =>
    intro s s' h
    simp only [List.foldlM_nil]
    exact congrArg Except.ok h
  | cons e es ih =>
    intro s s' h
    rw [List.foldlM_cons, List.foldlM_cons]
    have hc := erase_cong_handle_event ok ok' now e s s' h
    rcases except_map_cases eraseL hc with ⟨msg, hx, hy⟩ | ⟨a, b, hx, hy, hrel⟩
    · rw [hx, hy]
      rfl
    · rw [hx, hy]
      show (es.foldlM (handle_event ok now) a).map eraseL = _
      exact ih a b hrel

lemma erase_cong_fold_keys (ok ok' : Bool) (now : ℕ) :
    ∀ (ks : List ℕ) (s s' : LoopState), eraseL s = eraseL s' →
    (ks.foldlM (repeat_step ok now) s).map eraseL =
    (ks.foldlM (repeat_step ok' now) s').map eraseL := by
  intro ks
  induction ks with
  | nil =>
    intro s s' h
    simp only [List.foldlM_nil]
    exact congrArg Except.ok h
  | cons k ks ih =>
    intro s s' h
    rw [List.foldlM_cons, List.foldlM_cons]
    have hc := erase_cong_repeat_step ok ok' now k s s' h
    rcases except_map_cases eraseL hc with ⟨msg, hx, hy⟩ | ⟨a, b, hx, hy, hrel⟩
    · rw [hx, hy]
      rfl
    · rw [hx, hy]
      show (ks.foldlM (repeat_step ok now) a).map eraseL = _
      exact ih a b hrel

lemma erase_cong_loop_tick (ok ok' : Bool) (now : ℕ) (events : List PyEvent)
    (s s' : LoopState) (h : eraseL s = eraseL s') :
    (loop_tick ok now events s).map eraseL = (loop_tick ok' now events s').map eraseL := by
  rw [loop_tick, loop_tick]
  have h1 := erase_cong_fold_events ok ok' now events s s' h
  rcases except_map_cases eraseL h1 with ⟨msg, hx, hy⟩ | ⟨a, b, hx, hy, hab⟩
  · rw [hx, hy]
    rfl
  · rw [hx, hy, except_ok_bind, except_ok_bind]
    have hkeys : a.keys_pressed = b.keys_pressed := ((eraseL_eq_iff a b).mp hab).2.1
    have h2 : (process_key_repeat ok now a).map eraseL =
        (process_key_repeat ok' now b).map eraseL := by
      rw [process_key_repeat, process_key_repeat, hkeys]
      exact erase_cong_fold_keys ok ok' now b.keys_pressed a b hab
    rcases except_map_cases eraseL h2 with ⟨msg, hx2, hy2⟩ | ⟨a2, b2, hx2, hy2, hab2⟩
    · rw [hx2, hy2]
    · rw [hx2, hy2, except_ok_bind, except_ok_bind]
      obtain ⟨hrob2, hk2, hl2, hr2⟩ := (eraseL_eq_iff a2 b2).mp hab2
      simp only [Except.map]
      exact congrArg Except.ok ((eraseL_eq_iff _ _).mpr
        ⟨erase_cong_tick_smoothing _ _ hrob2, hk2, hl2, hr2⟩)

lemma erase_cong_run_loop (ok ok' : Bool) :
    ∀ (ticks : List (ℕ × List PyEvent)) (s s' : LoopState), eraseL s = eraseL s' →
    (run_loop ok ticks s).map eraseL = (run_loop ok' ticks s').map eraseL := by
  intro ticks
  induction ticks with
  | nil =>
    intro s s' h
    simp only [run_loop, List.foldlM_nil]
    exact congrArg Except.ok h
  | cons t ts ih =>
    intro s s' h
    rw [run_loop, List.foldlM_cons]
    rw [run_loop, List.foldlM_cons]
    have hc := erase_cong_loop_tick ok ok' t.1 t.2 s s' h
    rcases except_map_cases eraseL hc with ⟨msg, hx, hy⟩ | ⟨a, b, hx, hy, hrel⟩
    · rw [hx, hy]
      rfl
    · rw [hx, hy]
      show (ts.foldlM (fun st t => loop_tick ok t.1 t.2 st) a).map eraseL = _
      have := ih a b hrel
      rw [run_loop, run_loop] at this
      exact this

/-- C7: a transport failure is caught inside the send path and never
propagates: a tick (or a whole run) with failing sends produces exactly
the same targets, currents, status text, key state, timers and running
flag as the same tick with succeeding sends — only the transcript of
delivered frames differs — and it errs in exactly the same cases (never
because of the send). -/
theorem C7_transport_fault_isolation :
    (∀ (sendOk : Bool) (now : ℕ) (events : List PyEvent) (s s' : LoopState),
      eraseL s = eraseL s' →
      (loop_tick sendOk now events s).map eraseL =
        (loop_tick true now events s').map eraseL) ∧
    (∀ (sendOk : Bool) (ticks : List (ℕ × List PyEvent)) (s : LoopState),
      (run_loop sendOk ticks s).map eraseL = (run_loop true ticks s).map eraseL) := by
  constructor
  · intro ok now events s s' h
    exact erase_cong_loop_tick ok true now events s s' h
  · intro ok ticks s
    exact erase_cong_run_loop ok true ticks s s rfl

/-- Witness for C7: a failing-send tick on the initial state agrees with
the succeeding-send tick up to the transcript. -/
theorem C7_transport_fault_isolation_witness :
    (loop_tick false 0 [] initLoop).map eraseL = (loop_tick true 0 [] initLoop).map eraseL :=
  C7_transport_fault_isolation.1 false 0 [] initLoop initLoop rfl

/-- C8: a key-down for an unmapped key, or for a mapped key that is already
held (OS key repeat), emits no intent and leaves the robot state, the
held-key map, and the scheduled fire times untouched. -/
theorem C8_ignored_keydown (ok : Bool) (now : ℕ) (s : LoopState) (k : ℕ)
    (h : lookupKey k = none ∨ k ∈ s.keys_pressed) :
    ∃ s1, handle_event ok now s (PyEvent.keydown k) = Except.ok s1 ∧
      s1.robot = s.robot ∧ s1.keys_pressed = s.keys_pressed ∧
      s1.last_command_time = s.last_command_time := by
  rw [handle_event]
  by_cases hesc : k = K_ESCAPE
  · rw [if_pos hesc]
    exact ⟨_, rfl, rfl, rfl, rfl⟩
  · rw [if_neg hesc]
    cases hk : lookupKey k with
    | none => exact ⟨_, rfl, rfl, rfl, rfl⟩
    | some p =>
      rcases h with h | h
      · rw [hk] at h
        cases h
      · cases p with
        | mk mi dir => exact ⟨s, by simp [h], rfl, rfl, rfl⟩

/-- Witness for C8: key code 999 is unmapped and its key-down changes
nothing in the initial loop state. -/
theorem C8_ignored_keydown_witness :
    ∃ s1, handle_event true 0 initLoop (PyEvent.keydown 999) = Except.ok s1 ∧
      s1.robot = initLoop.robot ∧ s1.keys_pressed = initLoop.keys_pressed ∧
      s1.last_command_time = initLoop.last_command_time :=
  C8_ignored_keydown true 0 initLoop 999 (Or.inl rfl)

/-- C9 counterexample: `update_robot_action` with joint index 6 is not a
no-op but raises `IndexError` (which would propagate and kill the loop),
and with joint index -1 it adjusts joint 5 via Python negative indexing
(430 + 3 = 433 on the Hand joint). -/
theorem C9_invalid_index_cex :
    update_robot_action true initRobot "x" (some 6) "increase" 3 =
      Except.error "IndexError: list index out of range" ∧
    (update_robot_action true initRobot "x" (some (-1)) "increase" 3).map
      (fun s1 => s1.motor_targets) = Except.ok [512, 512, 512, 956, 800, 433] :=
  ⟨rfl, of_decide_eq_true (by with_unfolding_all rfl)⟩

/-- C9 amended: a joint index at or above 6, or below -6, makes
`update_robot_action` raise `IndexError` (propagating to the caller rather
than silently doing nothing), while an index in -6..-1 aliases joint
index + 6 by Python negative indexing and performs that joint's normal
clamped adjustment. -/
theorem C9_invalid_index_behavior (s : RobotState) (a dir : String) (step : ℚ) (mi : ℤ) :
    ((6 ≤ mi ∨ mi < -6) →
      update_robot_action true s a (some mi) dir step =
        Except.error "IndexError: list index out of range") ∧
    (-6 ≤ mi → mi < 0 →
      (update_robot_action true s a (some mi) dir step).map (fun s1 => s1.motor_targets) =
        (update_robot_action true s a (some (mi + 6)) dir step).map
          (fun s1 => s1.motor_targets)) := by
  constructor
  · intro h
    rw [update_robot_action, motor_ranges_length, pyIdx_of_out 6 mi (by omega)]
  · intro h1 h2
    have e1 : pyIdx motor_ranges.length mi = some (mi + 6).toNat := by
      rw [motor_ranges_length, pyIdx_of_neg 6 mi (by omega) h2]
      norm_num
    have e2 : pyIdx motor_ranges.length (mi + 6) = some (mi + 6).toNat := by
      rw [motor_ranges_length, pyIdx_of_nonneg_lt 6 (mi + 6) (by omega) (by omega)]
    obtain ⟨s1, hs1, ht1, -, -⟩ := ura_ok true s a mi dir step _ e1
    obtain ⟨s2, hs2, ht2, -, -⟩ := ura_ok true s a (mi + 6) dir step _ e2
    rw [hs1, hs2]
    simp [Except.map, ht1, ht2]

/-- Witness for C9 amended: index 7 raises `IndexError` on the initial
state. -/
theorem C9_invalid_index_behavior_witness :
    update_robot_action true initRobot "x" (some 7) "increase" 3 =
      Except.error "IndexError: list index out of range" :=
  (C9_invalid_index_behavior initRobot "x" "increase" 3 7).1 (Or.inl (by decide))

/-- C10: a call of `update_robot_action` with a valid joint index but a
direction that is neither "increase" nor "decrease" leaves all six targets
(and everything else except the transcript) unchanged, yet still encodes
and transmits a frame carrying the unchanged targets. -/
theorem C10_unknown_direction_still_sends (s : RobotState) (a dir : String) (step : ℚ)
    (mi : ℤ) (h0 : 0 ≤ mi) (h6 : mi < 6)
    (hi : dir ≠ "increase") (hd : dir ≠ "decrease") :
    update_robot_action true s a (some mi) dir step =
      Except.ok { s with sent := s.sent ++ [encode_command s.motor_targets] } := by
  rw [update_robot_action, motor_ranges_length, pyIdx_of_nonneg_lt 6 mi h0 h6]
  simp [hi, hd, send_command]

/-- Witness for C10: direction "noop" on joint 0 of the initial state
sends the unchanged frame. -/
theorem C10_unknown_direction_still_sends_witness :
    update_robot_action true initRobot "x" (some 0) "noop" 3 =
      Except.ok { initRobot with
                   sent := initRobot.sent ++ [encode_command initRobot.motor_targets] } :=
  C10_unknown_direction_still_sends initRobot "x" "noop" 3 0 (by decide) (by decide)
    (by decide) (by decide)

end Manipulator
